import Mathlib

/-!
Verification of the code-review progress tracker (`codereview.py`).

The script keeps, per pull request, a JSON record
`{"files": {path: {"lines": n, "reviewed": b}}, "total_lines": t}` and offers
`overview` (build and persist a fresh record from PR metadata), `status`
(aggregate progress), `review` (mark one file reviewed), and an interactive
session whose numeric selectors are validated by `valid_ids`.

Python dicts are modelled as insertion-ordered association lists with
insert-or-update (`setFile`) and lookup (`getEntry`); machine integers are
`Nat`/`Int`; the one floating-point expression, the percentage of
`cmd_status`, is modelled bit-faithfully as IEEE-754 binary64 arithmetic
over exact significand-exponent pairs (`flN`, `pyPct`); user prompts (`yn`)
become explicit boolean parameters; printed diagnostics become explicit
message values; the file system becomes an explicit store value threaded
through `save_state`/`load_state`.
-/

/-- Entry of the `files` mapping: `{"lines": n, "reviewed": b}`. -/
structure FileEntry where
  lines : Nat
  reviewed : Bool
deriving Repr, DecidableEq

/-- The `files` dict of a review state: insertion-ordered association list. -/
abbrev Files := List (String × FileEntry)

/-- The persisted review record: `{"files": ..., "total_lines": ...}`. -/
structure ReviewState where
  files : Files
  total_lines : Nat
deriving Repr, DecidableEq

/-- Dict lookup `state["files"][path]`, `none` when `path not in state["files"]`. -/
def getEntry : Files → String → Option FileEntry
  | [], _ => none
  | (q, d) :: rest, p => if q = p then some d else getEntry rest p

/-- Dict assignment `state["files"][path] = entry`: update the value in place
when the key is present (keeping its position, as Python dicts do), otherwise
append the new key at the end. -/
def setFile : Files → String → FileEntry → Files
  | [], p, e => [(p, e)]
  | (q, d) :: rest, p, e =>
      if q = p then (p, e) :: rest else (q, d) :: setFile rest p e

/-- One element of the `gh pr view --json files` list:
`{"path": ..., "additions": ..., "deletions": ...}`. -/
structure PRFile where
  path : String
  additions : Nat
  deletions : Nat
deriving Repr, DecidableEq

/-- One iteration of the state-building loop in `cmd_overview` (lines 142-146):
`lines = additions + deletions`, insert `{"lines": lines, "reviewed": False}`
under the path, and add `lines` into `total_lines`. -/
def buildStep (st : ReviewState) (f : PRFile) : ReviewState :=
  { files := setFile st.files f.path ⟨f.additions + f.deletions, false⟩,
    total_lines := st.total_lines + (f.additions + f.deletions) }

/-- The review state constructed by the `cmd_overview` loop from the PR file
list, starting from `{"files": {}, "total_lines": 0}` (lines 138-146). -/
def buildState (l : List PRFile) : ReviewState :=
  l.foldl buildStep ⟨[], 0⟩

/-- Result of running `cmd_overview`. After the state updates of each loop
iteration, line 147 evaluates `mark = "✅ " if reviewed else ""`, and the
name `reviewed` is not defined in the scope of `cmd_overview` (it is only a
local of `cmd_status`): the first iteration therefore raises `NameError`
before `save_state` on line 153 is reached. Only an empty file list survives
the loop and gets its (empty) state persisted. -/
def cmdOverview (l : List PRFile) : Except String ReviewState :=
  match l with
  | [] => Except.ok ⟨[], 0⟩
  | _ :: _ => Except.error "NameError: name reviewed is not defined"

/-- Sum of the `lines` fields stored in a `files` mapping. -/
def sumLines (fs : Files) : Nat :=
  (fs.map (fun q => q.2.lines)).sum

/-- Sum of `lines` over the entries with `reviewed` true: the generator sum on
line 165 of `cmd_status`. -/
def reviewedLines (fs : Files) : Nat :=
  ((fs.filter (fun q => q.2.reviewed)).map (fun q => q.2.lines)).sum

/-- What `cmd_status` prints (line 169): remaining lines, percentage, files
not yet reviewed. -/
structure StatusReport where
  remaining : Int
  pct : Nat
  files_left : Nat
deriving Repr, DecidableEq

/-- Binary exponent of the ratio `a / b ≥ 1`: the largest `e` with
`2 ^ e ≤ a / b`, found by repeated halving (doubling `b`); `fuel` only
bounds the recursion and is chosen far beyond the binary64 exponent
range. -/
def bexp : Nat → Nat → Nat → Nat
  | 0, _, _ => 0
  | fuel + 1, a, b => if a < 2 * b then 0 else bexp fuel a (2 * b) + 1

/-- Recursion bound for `bexp`/`qexp`: larger than any binary64 exponent. -/
def floatFuel : Nat := 1100

/-- Binary exponent of a positive ratio `a / b`: the unique `e : Int` with
`2 ^ e ≤ a / b < 2 ^ (e + 1)`. For `a / b < 1` it is computed from the
exponent `k` of the inverse `b / a`: the ratio is exactly `2 ^ (-k)` when
`a * 2 ^ k = b`, and lies strictly between `2 ^ (-k-1)` and `2 ^ (-k)`
otherwise. -/
def qexp (a b : Nat) : Int :=
  if b ≤ a then (bexp floatFuel a b : Int)
  else
    let k := bexp floatFuel b a
    if a * 2 ^ k = b then -(k : Int) else -(k : Int) - 1

/-- Round the exact ratio `a / b` (with `b > 0`) to the nearest integer,
ties to even: the IEEE-754 default rounding applied to a scaled
significand. -/
def rheN (a b : Nat) : Nat :=
  let f := a / b
  let r := a % b
  if 2 * r < b then f
  else if b < 2 * r then f + 1
  else if f % 2 = 0 then f else f + 1

/-- Round the exact nonnegative ratio `a / b` (with `b > 0`) to the nearest
IEEE-754 binary64 value, returned as a significand-exponent pair `(n, g)`
denoting `n * 2 ^ g`: the significand grid has step `2 ^ g` with
`g = e - 52`, so the ratio is scaled by `2 ^ (-g)` and rounded half to
even. Models the normal range of binary64 (no subnormals, overflow or
negatives), which covers every realistic line count. -/
def flN (a b : Nat) : Nat × Int :=
  if a = 0 then (0, 0)
  else
    let g : Int := qexp a b - 52
    if g ≤ 0 then (rheN (a * 2 ^ (-g).toNat) b, g)
    else (rheN a (b * 2 ^ g.toNat), g)

/-- The Python expression `int((reviewed / total) * 100)` of `cmd_status`
line 167, for `total > 0`, under IEEE-754 binary64 semantics: `/` on ints
is true division correctly rounded to a double, `* 100` is a double
multiplication (100 is exact) correctly rounding the exact product, and
`int()` truncates the nonnegative result toward zero. -/
def pyPct (reviewed total : Nat) : Nat :=
  let d := flN reviewed total
  let m :=
    if d.2 ≤ 0 then flN (d.1 * 100) (2 ^ (-d.2).toNat)
    else flN (d.1 * 100 * 2 ^ d.2.toNat) 1
  if m.2 ≤ 0 then m.1 / 2 ^ (-m.2).toNat else m.1 * 2 ^ m.2.toNat

/-- The computation of `cmd_status` (lines 164-169) on a loaded state:
`reviewed` sums reviewed lines, `remaining = total - reviewed`,
`pct = int((reviewed / total) * 100) if total else 100` (the float
expression modelled bit-faithfully by `pyPct`), and `files_left` counts
the unreviewed entries. -/
def cmdStatus (st : ReviewState) : StatusReport :=
  let total := st.total_lines
  let reviewed := reviewedLines st.files
  { remaining := (total : Int) - (reviewed : Int),
    pct := if total ≠ 0 then pyPct reviewed total else 100,
    files_left := (st.files.filter (fun q => !q.2.reviewed)).length }

/-- The distinguishable messages `cmd_review` prints. -/
inductive ReviewMsg where
  | unknownFile
  | alreadyReviewed
  | marked (lines : Nat) (mode : String)
deriving Repr, DecidableEq

/-- Result of a `cmd_review` call: the boolean it returns, the message it
prints (of the three modelled kinds), the in-memory state afterwards, and
whether `save_state` was invoked. -/
structure ReviewOutcome where
  success : Bool
  msg : Option ReviewMsg
  state : ReviewState
  saved : Bool
deriving Repr, DecidableEq

/-- The body of `cmd_review` (lines 172-187) on a loaded state. `answer` is
what the `yn("Mark reviewed?")` prompt returns. Unknown path: report and
return `False` with no mutation. Already reviewed: report and return `False`.
Otherwise the external review action runs, and only on a yes answer is the
entry flipped to reviewed, the state saved, and the line count reported. -/
def cmdReview (st : ReviewState) (path mode : String) (answer : Bool) :
    ReviewOutcome :=
  match getEntry st.files path with
  | none => ⟨false, some ReviewMsg.unknownFile, st, false⟩
  | some e =>
      if e.reviewed then ⟨false, some ReviewMsg.alreadyReviewed, st, false⟩
      else if answer then
        { success := true,
          msg := some (ReviewMsg.marked e.lines mode),
          state := ⟨setFile st.files path ⟨e.lines, true⟩, st.total_lines⟩,
          saved := true }
      else ⟨false, none, st, false⟩

/-- Python `str.isdigit` restricted to ASCII: nonempty and all characters in
`0`-`9`. -/
def pyIsDigit (s : String) : Bool :=
  !s.data.isEmpty && s.data.all Char.isDigit

/-- Python `int(...)` on an all-digit string. -/
def digitsToNat (s : String) : Nat :=
  s.data.foldl (fun a c => a * 10 + (c.toNat - 48)) 0

/-- The test on line 203 of `valid_ids`, negated: a token passes when it is
all digits and its value lies in `[1, n]` where `n` is the number of files. -/
def tokenValid (n : Nat) (s : String) : Bool :=
  pyIsDigit s && (1 ≤ digitsToNat s && digitsToNat s ≤ n)

/-- The `valid_ids` generator (lines 201-206) over a token list: returns the
yielded tokens in order together with the tokens reported by an
`invalid file id` diagnostic, one per invalid token. -/
def valid_ids (n : Nat) : List String → List String × List String
  | [] => ([], [])
  | i :: rest =>
      let r := valid_ids n rest
      if tokenValid n i then (i :: r.1, r.2) else (r.1, i :: r.2)

/-- The `print_files` interactive command (lines 208-212): prints the resolved
path of every valid selector, with the diagnostics of `valid_ids`. -/
def print_files (paths : List String) (ids : List String) :
    List String × List String :=
  let r := valid_ids paths.length ids
  (r.1.map (fun i => paths.getD (digitsToNat i - 1) ""), r.2)

/-- JSON values, as produced by `json.dump` and consumed by `json.load`:
objects keep field order, numbers of this program are integers. -/
inductive Json where
  | null
  | bool (b : Bool)
  | num (n : Int)
  | str (s : String)
  | arr (elems : List Json)
  | obj (fields : List (String × Json))
deriving Repr

/-- Serialization of a file entry: `{"lines": n, "reviewed": b}`. -/
def encodeEntry (e : FileEntry) : Json :=
  Json.obj [("lines", Json.num e.lines), ("reviewed", Json.bool e.reviewed)]

/-- Serialization of a review state, the shape `json.dump` writes in
`save_state`: `{"files": {...}, "total_lines": t}`. -/
def encodeState (s : ReviewState) : Json :=
  Json.obj [("files", Json.obj (s.files.map (fun q => (q.1, encodeEntry q.2)))),
            ("total_lines", Json.num s.total_lines)]

/-- Reading a file entry back from JSON. -/
def decodeEntry : Json → Option FileEntry
  | Json.obj [("lines", Json.num (Int.ofNat n)), ("reviewed", Json.bool b)] =>
      some ⟨n, b⟩
  | _ => none

/-- Reading the `files` object back from JSON, field by field. -/
def decodeFiles : List (String × Json) → Option Files
  | [] => some []
  | (p, j) :: rest => do
      let e ← decodeEntry j
      let fs ← decodeFiles rest
      some ((p, e) :: fs)

/-- Reading a review state back from JSON, the shape `json.load` returns in
`load_state`. -/
def decodeState : Json → Option ReviewState
  | Json.obj [("files", Json.obj fjs), ("total_lines", Json.num (Int.ofNat t))] =>
      match decodeFiles fjs with
      | some fs => some ⟨fs, t⟩
      | none => none
  | _ => none

/-- The state-file directory, one JSON file per pull-request key. -/
def Store : Type := String → Option Json

/-- The `save_state` write (lines 83-87): overwrite the record of `pr_key`
with the JSON serialization of the state. -/
def save_state (store : Store) (state : ReviewState) (pr_key : String) : Store :=
  fun k => if k = pr_key then some (encodeState state) else store k

/-- The `load_state` read (lines 72-76): parse the record of `pr_key` when the
file exists; `none` models the absent-state path (the script then offers to
run the overview). -/
def load_state (store : Store) (pr_key : String) : Option ReviewState :=
  match store pr_key with
  | none => none
  | some j => decodeState j

/-- The entry of the last occurrence of a path in a PR file list, as a fresh
(unreviewed) file entry. -/
def lastEntry : List PRFile → String → Option FileEntry
  | [], _ => none
  | f :: rest, p =>
      match lastEntry rest p with
      | some e => some e
      | none =>
          if f.path = p then some ⟨f.additions + f.deletions, false⟩ else none

theorem getEntry_setFile_self (fs : Files) (p : String) (e : FileEntry) :
    getEntry (setFile fs p e) p = some e := by
  induction fs with
  | nil => simp [setFile, getEntry]
  | cons q rest ih =>
      obtain ⟨k, d⟩ := q
      by_cases h : k = p <;> simp [setFile, getEntry, h, ih]

theorem getEntry_setFile_ne (fs : Files) (p q : String) (e : FileEntry)
    (h : q ≠ p) : getEntry (setFile fs p e) q = getEntry fs q := by
  induction fs with
  | nil => simp [setFile, getEntry, Ne.symm h]
  | cons x rest ih =>
      obtain ⟨k, d⟩ := x
      by_cases hk : k = p
      · subst hk
        simp [setFile, getEntry, Ne.symm h]
      · simp [setFile, getEntry, hk, ih]

theorem setFile_eq_append (fs : Files) (p : String) (e : FileEntry)
    (h : getEntry fs p = none) : setFile fs p e = fs ++ [(p, e)] := by
  induction fs with
  | nil => simp [setFile]
  | cons x rest ih =>
      obtain ⟨k, d⟩ := x
      by_cases hk : k = p
      · simp [getEntry, hk] at h
      · simp [getEntry, hk] at h
        simp [setFile, hk, ih h]

theorem getEntry_eq_none_iff (fs : Files) (p : String) :
    getEntry fs p = none ↔ p ∉ fs.map Prod.fst := by
  induction fs with
  | nil => simp [getEntry]
  | cons x rest ih =>
      obtain ⟨k, d⟩ := x
      by_cases hk : k = p
      · simp [getEntry, hk]
      · simp [getEntry, hk, Ne.symm hk, ih]

theorem keys_setFile (fs : Files) (p : String) (e : FileEntry) :
    (setFile fs p e).map Prod.fst =
      if getEntry fs p = none then fs.map Prod.fst ++ [p]
      else fs.map Prod.fst := by
  induction fs with
  | nil => simp [setFile, getEntry]
  | cons x rest ih =>
      obtain ⟨k, d⟩ := x
      by_cases hk : k = p
      · simp [setFile, getEntry, hk]
      · have hs : setFile ((k, d) :: rest) p e = (k, d) :: setFile rest p e := by
          simp [setFile, hk]
        have hg : getEntry ((k, d) :: rest) p = getEntry rest p := by
          simp [getEntry, hk]
        rw [hs, hg, List.map_cons, ih]
        by_cases hr : getEntry rest p = none <;> simp [hr]

theorem nodupKeys_setFile (fs : Files) (p : String) (e : FileEntry)
    (h : (fs.map Prod.fst).Nodup) : ((setFile fs p e).map Prod.fst).Nodup := by
  rw [keys_setFile]
  by_cases hp : getEntry fs p = none
  · rw [if_pos hp]
    have hmem : p ∉ fs.map Prod.fst := (getEntry_eq_none_iff fs p).mp hp
    simp [List.nodup_append, h, hmem]
  · rw [if_neg hp]
    exact h

theorem linesMap_setFile (fs : Files) (p : String) (e : FileEntry) (b : Bool)
    (h : getEntry fs p = some e) :
    (setFile fs p ⟨e.lines, b⟩).map (fun q => (q.1, q.2.lines)) =
      fs.map (fun q => (q.1, q.2.lines)) := by
  induction fs with
  | nil => simp [getEntry] at h
  | cons x rest ih =>
      obtain ⟨k, d⟩ := x
      by_cases hk : k = p
      · simp [getEntry, hk] at h
        simp [setFile, hk, h]
      · simp [getEntry, hk] at h
        simp [setFile, hk, ih h]

theorem mem_setFile (fs : Files) (p : String) (e : FileEntry) (q : String × FileEntry)
    (h : q ∈ setFile fs p e) : q = (p, e) ∨ q ∈ fs := by
  induction fs with
  | nil => simpa [setFile] using h
  | cons x rest ih =>
      obtain ⟨k, d⟩ := x
      by_cases hk : k = p
      · simp [setFile, hk] at h
        rcases h with h | h
        · exact Or.inl (by simp [h])
        · exact Or.inr (List.mem_cons_of_mem _ h)
      · simp [setFile, hk] at h
        rcases h with h | h
        · exact Or.inr (by simp [h])
        · rcases ih h with hh | hh
          · exact Or.inl hh
          · exact Or.inr (List.mem_cons_of_mem _ hh)

theorem sumLines_append_single (fs : Files) (p : String) (e : FileEntry) :
    sumLines (fs ++ [(p, e)]) = sumLines fs + e.lines := by
  simp [sumLines]

theorem foldl_buildStep_total (l : List PRFile) (st : ReviewState) :
    (l.foldl buildStep st).total_lines =
      st.total_lines + (l.map (fun f => f.additions + f.deletions)).sum := by
  induction l generalizing st with
  | nil => simp
  | cons f rest ih =>
      simp only [List.foldl_cons, List.map_cons, List.sum_cons]
      rw [ih]
      simp [buildStep]
      ring

theorem getEntry_foldl_buildStep (l : List PRFile) (st : ReviewState) (p : String) :
    getEntry (l.foldl buildStep st).files p =
      match lastEntry l p with
      | some e => some e
      | none => getEntry st.files p := by
  induction l generalizing st with
  | nil => simp [lastEntry]
  | cons f rest ih =>
      simp only [List.foldl_cons, lastEntry]
      rw [ih]
      cases hr : lastEntry rest p with
      | some e => simp
      | none =>
          by_cases hp : f.path = p
          · subst hp
            simp [buildStep, getEntry_setFile_self]
          · simp [buildStep, hp, getEntry_setFile_ne _ _ _ _ (Ne.symm hp)]

theorem nodupKeys_foldl_buildStep (l : List PRFile) (st : ReviewState)
    (h : (st.files.map Prod.fst).Nodup) :
    ((l.foldl buildStep st).files.map Prod.fst).Nodup := by
  induction l generalizing st with
  | nil => exact h
  | cons f rest ih =>
      exact ih _ (nodupKeys_setFile _ _ _ h)

theorem unreviewed_foldl_buildStep (l : List PRFile) (st : ReviewState)
    (h : ∀ q ∈ st.files, q.2.reviewed = false) :
    ∀ q ∈ (l.foldl buildStep st).files, q.2.reviewed = false := by
  induction l generalizing st with
  | nil => exact h
  | cons f rest ih =>
      refine ih _ ?_
      intro q hq
      rcases mem_setFile _ _ _ _ hq with hq | hq
      · simp [hq]
      · exact h q hq

theorem sumLines_foldl_buildStep_nodup (l : List PRFile) (st : ReviewState)
    (hn : (l.map PRFile.path).Nodup)
    (hfresh : ∀ f ∈ l, getEntry st.files f.path = none) :
    sumLines (l.foldl buildStep st).files =
      sumLines st.files + (l.map (fun f => f.additions + f.deletions)).sum := by
  induction l generalizing st with
  | nil => simp
  | cons f rest ih =>
      simp only [List.map_cons, List.nodup_cons] at hn
      have hf : getEntry st.files f.path = none := hfresh f (by simp)
      have hstep : (buildStep st f).files = st.files ++ [(f.path, ⟨f.additions + f.deletions, false⟩)] := by
        simp [buildStep, setFile_eq_append _ _ _ hf]
      simp only [List.foldl_cons, List.map_cons, List.sum_cons]
      rw [ih _ hn.2]
      · rw [hstep, sumLines_append_single]
        ring
      · intro g hg
        have hgne : g.path ≠ f.path := by
          intro hEq
          exact hn.1 (hEq ▸ List.mem_map_of_mem PRFile.path hg)
        rw [hstep]
        have : getEntry (st.files ++ [(f.path, ⟨f.additions + f.deletions, false⟩)]) g.path =
            getEntry st.files g.path := by
          rw [← setFile_eq_append _ _ _ hf]
          exact getEntry_setFile_ne _ _ _ _ hgne
        rw [this]
        exact hfresh g (List.mem_cons_of_mem _ hg)

theorem decodeEntry_encodeEntry (e : FileEntry) :
    decodeEntry (encodeEntry e) = some e := by
  obtain ⟨l, r⟩ := e
  rfl

theorem decodeFiles_encode (fs : Files) :
    decodeFiles (fs.map (fun q => (q.1, encodeEntry q.2))) = some fs := by
  induction fs with
  | nil => rfl
  | cons q rest ih => simp [decodeFiles, decodeEntry_encodeEntry, ih]

theorem decodeState_encodeState (s : ReviewState) :
    decodeState (encodeState s) = some s := by
  obtain ⟨fs, t⟩ := s
  show (match decodeFiles (fs.map (fun q => (q.1, encodeEntry q.2))) with
        | some fs2 => some (⟨fs2, t⟩ : ReviewState)
        | none => none) = some ⟨fs, t⟩
  rw [decodeFiles_encode]

theorem cmdReview_total (st : ReviewState) (path mode : String) (a : Bool) :
    (cmdReview st path mode a).state.total_lines = st.total_lines := by
  unfold cmdReview
  cases h : getEntry st.files path with
  | none => rfl
  | some e => by_cases hr : e.reviewed <;> by_cases ha : a <;> simp [hr, ha]

theorem cmdReview_linesMap (st : ReviewState) (path mode : String) (a : Bool) :
    (cmdReview st path mode a).state.files.map (fun q => (q.1, q.2.lines)) =
      st.files.map (fun q => (q.1, q.2.lines)) := by
  unfold cmdReview
  cases h : getEntry st.files path with
  | none => rfl
  | some e =>
      by_cases hr : e.reviewed
      · simp [hr]
      · by_cases ha : a
        · simpa [hr, ha] using linesMap_setFile st.files path e true h
        · simp [hr, ha]

theorem reviewedLines_eq_zero (fs : Files)
    (h : ∀ q ∈ fs, q.2.reviewed = false) : reviewedLines fs = 0 := by
  unfold reviewedLines
  have hf : fs.filter (fun q => q.2.reviewed) = [] := by
    rw [List.filter_eq_nil_iff]
    intro q hq
    simp [h q hq]
  rw [hf]
  rfl

theorem filter_unreviewed_eq_self (fs : Files)
    (h : ∀ q ∈ fs, q.2.reviewed = false) :
    fs.filter (fun q => !q.2.reviewed) = fs := by
  rw [List.filter_eq_self]
  intro q hq
  simp [h q hq]

/-- Claim C1 (code bug): the overview is meant to build and persist, for the
file list `[(a.py,+5,-0),(b.py,+0,-3)]`, the state
`{a.py:{lines:5,reviewed:false}, b.py:{lines:3,reviewed:false}}` with
`total_lines = 8`; the state-building loop indeed computes exactly that
state, but `cmd_overview` evaluates the undefined name `reviewed` on its
first iteration and raises `NameError` before `save_state`, so for every
non-empty file list nothing is persisted. -/
theorem overview_crashes_before_persisting :
    cmdOverview [⟨"a.py", 5, 0⟩, ⟨"b.py", 0, 3⟩] =
      Except.error "NameError: name reviewed is not defined" ∧
    buildState [⟨"a.py", 5, 0⟩, ⟨"b.py", 0, 3⟩] =
      ⟨[("a.py", ⟨5, false⟩), ("b.py", ⟨3, false⟩)], 8⟩ :=
  ⟨rfl, by decide⟩

/-- Claim C2 (counterexample): a file list repeating the same path twice,
`[(a,+1,-0),(a,+2,-0)]`, yields a state whose `total_lines` is `3` while the
`files` mapping keeps one entry of `2` lines, so `total_lines` differs from
the sum of the stored `lines` fields immediately after creation. -/
theorem total_lines_ne_sum_on_duplicate_paths :
    ¬ ((buildState [⟨"a", 1, 0⟩, ⟨"a", 2, 0⟩]).total_lines =
        sumLines (buildState [⟨"a", 1, 0⟩, ⟨"a", 2, 0⟩]).files) := by
  decide

/-- Claim C2 (amended): for every file list whose paths are pairwise distinct,
the state built by the overview loop satisfies
`total_lines = sum of the stored lines fields`; and no `cmd_review` call
(with any path, mode and prompt answer) changes `total_lines` or the `lines`
field of any entry (the path-and-lines skeleton of `files` is preserved). -/
theorem total_lines_invariant_amended :
    (∀ l : List PRFile, (l.map PRFile.path).Nodup →
        (buildState l).total_lines = sumLines (buildState l).files) ∧
    (∀ (st : ReviewState) (path mode : String) (a : Bool),
        (cmdReview st path mode a).state.total_lines = st.total_lines ∧
        (cmdReview st path mode a).state.files.map (fun q => (q.1, q.2.lines)) =
          st.files.map (fun q => (q.1, q.2.lines))) := by
  constructor
  · intro l hn
    unfold buildState
    rw [foldl_buildStep_total,
        sumLines_foldl_buildStep_nodup l ⟨[], 0⟩ hn (fun f _ => rfl)]
    simp [sumLines]
  · intro st path mode a
    exact ⟨cmdReview_total st path mode a, cmdReview_linesMap st path mode a⟩

/-- Witness for the amended C2, at the two-file list of the spec scenario and
at one concrete review call. -/
theorem total_lines_invariant_witness :
    (buildState [⟨"a.py", 5, 0⟩, ⟨"b.py", 0, 3⟩]).total_lines =
      sumLines (buildState [⟨"a.py", 5, 0⟩, ⟨"b.py", 0, 3⟩]).files ∧
    (cmdReview ⟨[("a.py", ⟨5, false⟩)], 5⟩ "a.py" "skim" true).state.total_lines = 5 :=
  ⟨total_lines_invariant_amended.1 [⟨"a.py", 5, 0⟩, ⟨"b.py", 0, 3⟩] (by decide),
   (total_lines_invariant_amended.2 ⟨[("a.py", ⟨5, false⟩)], 5⟩ "a.py" "skim" true).1⟩

/-- Claim C3 (counterexample): on the state with one reviewed 2-line file and
one unreviewed 1-line file (`total_lines = 3`), the claimed formula
`round(100 * 2 / 3)` gives `67`, but `cmd_status` computes
`int((2 / 3) * 100) = 66`: the code truncates, it does not round. -/
theorem pct_truncates_not_rounds :
    (cmdStatus ⟨[("a", ⟨2, true⟩), ("b", ⟨1, false⟩)], 3⟩).pct = 66 ∧
    round ((100 * (2 : ℚ)) / 3) = 67 := by
  constructor
  · decide
  · rw [round_eq]
    norm_num

/-- Claim C3 (amended): whenever `total_lines > 0`, `cmd_status` reports the
truncation toward zero of the IEEE-754 binary64 evaluation of
`(reviewedLines / total_lines) * 100` — not its rounding: the spec example
(10-line file reviewed, 30-line file not, total 40) still reports
remaining=30, reviewed=10, percent=25 because those doubles are exact; at
2 reviewed lines of 3 the code reports 66 where rounding gives 67; and the
two float roundings can even land just below an exact integer quotient: at
29 reviewed lines of 50 the code reports 57 while exact arithmetic gives
100 * 29 / 50 = 58. -/
theorem pct_truncated_float :
    (∀ st : ReviewState, st.total_lines ≠ 0 →
        (cmdStatus st).pct = pyPct (reviewedLines st.files) st.total_lines) ∧
    (cmdStatus ⟨[("A", ⟨10, true⟩), ("B", ⟨30, false⟩)], 40⟩).pct = 25 ∧
    (cmdStatus ⟨[("A", ⟨10, true⟩), ("B", ⟨30, false⟩)], 40⟩).remaining = 30 ∧
    reviewedLines [("A", ⟨10, true⟩), ("B", ⟨30, false⟩)] = 10 ∧
    (cmdStatus ⟨[("a", ⟨2, true⟩), ("b", ⟨1, false⟩)], 3⟩).pct = 66 ∧
    (cmdStatus ⟨[("a", ⟨29, true⟩), ("b", ⟨21, false⟩)], 50⟩).pct = 57 ∧
    100 * 29 / 50 = 58 := by
  refine ⟨?_, by decide, by decide, by decide, by decide, by decide, by decide⟩
  intro st h
  simp [cmdStatus, h]

/-- Witness for the amended C3, instantiating its quantified conjunct at the
spec example state. -/
theorem pct_truncated_float_witness :
    (cmdStatus ⟨[("A", ⟨10, true⟩), ("B", ⟨30, false⟩)], 40⟩).pct =
      pyPct (reviewedLines [("A", ⟨10, true⟩), ("B", ⟨30, false⟩)]) 40 :=
  pct_truncated_float.1 ⟨[("A", ⟨10, true⟩), ("B", ⟨30, false⟩)], 40⟩
    (by decide)

theorem cmdReview_already (st : ReviewState) (path mode : String) (a : Bool)
    (l : Nat) (h : getEntry st.files path = some ⟨l, true⟩) :
    cmdReview st path mode a =
      ⟨false, some ReviewMsg.alreadyReviewed, st, false⟩ := by
  unfold cmdReview
  rw [h]
  rfl

/-- Claim C4: for every state and path present in `files`, after a confirmed
`cmd_review` call the entry is reviewed, and a second call on the same path
(any mode, any prompt answer) returns `False`, prints the already-reviewed
message, performs no save, and leaves the whole state unchanged. -/
theorem cmd_review_idempotent (st : ReviewState) (path m1 m2 : String) (a : Bool)
    (e : FileEntry) (h : getEntry st.files path = some e) :
    ∃ l, getEntry (cmdReview st path m1 true).state.files path = some ⟨l, true⟩ ∧
      cmdReview (cmdReview st path m1 true).state path m2 a =
        ⟨false, some ReviewMsg.alreadyReviewed, (cmdReview st path m1 true).state,
          false⟩ := by
  obtain ⟨l, r⟩ := e
  have h1 : getEntry (cmdReview st path m1 true).state.files path =
      some ⟨l, true⟩ := by
    cases r
    · simp [cmdReview, h, getEntry_setFile_self]
    · simp [cmdReview, h]
  exact ⟨l, h1, cmdReview_already _ path m2 a l h1⟩

/-- Witness for C4: one 5-line unreviewed file, reviewed in skim mode and then
re-reviewed in deep mode with a no answer. -/
theorem cmd_review_idempotent_witness :
    ∃ l, getEntry (cmdReview ⟨[("a.py", ⟨5, false⟩)], 5⟩ "a.py" "skim" true).state.files
        "a.py" = some ⟨l, true⟩ ∧
      cmdReview (cmdReview ⟨[("a.py", ⟨5, false⟩)], 5⟩ "a.py" "skim" true).state
          "a.py" "deep" false =
        ⟨false, some ReviewMsg.alreadyReviewed,
          (cmdReview ⟨[("a.py", ⟨5, false⟩)], 5⟩ "a.py" "skim" true).state, false⟩ :=
  cmd_review_idempotent ⟨[("a.py", ⟨5, false⟩)], 5⟩ "a.py" "skim" "deep" false
    ⟨5, false⟩ (by decide)

/-- Claim C5: over any fixed file list, `valid_ids` yields exactly the tokens
that are all-digit numerals with value in `[1, N]`, in order, and reports one
invalid-id diagnostic for each remaining token; with 3 files the selector
list `[1, 9, x, 2]` yields tokens 1 and 2, two diagnostics (for 9 and for x),
and `print_files` resolves exactly files 1 and 2. -/
theorem valid_ids_filters_invalid_tokens (paths tokens : List String) :
    valid_ids paths.length tokens =
      (tokens.filter (fun t => tokenValid paths.length t),
       tokens.filter (fun t => !tokenValid paths.length t)) ∧
    valid_ids 3 ["1", "9", "x", "2"] = (["1", "2"], ["9", "x"]) ∧
    print_files ["f1", "f2", "f3"] ["1", "9", "x", "2"] =
      (["f1", "f2"], ["9", "x"]) := by
  refine ⟨?_, by decide, by decide⟩
  induction tokens with
  | nil => rfl
  | cons t rest ih =>
      by_cases h : tokenValid paths.length t <;>
        simp [valid_ids, List.filter_cons, h, ih]

/-- Claim C6 (counterexample): the file list `[(a.py,+0,-0)]` creates a state
with `total_lines = 0` but one (unreviewed, zero-line) file entry, and
`cmd_status` then counts 1 file remaining, not 0. -/
theorem zero_total_can_leave_files_remaining :
    (buildState [⟨"a.py", 0, 0⟩]).total_lines = 0 ∧
    (cmdStatus (buildState [⟨"a.py", 0, 0⟩])).files_left = 1 := by
  decide

/-- Claim C6 (amended): on every freshly created state with `total_lines = 0`,
`cmd_status` reports 100 percent reviewed and 0 lines remaining, and the
files-remaining count equals the number of file entries (all of them are
unreviewed zero-line entries); it is 0 exactly when the file list was
empty. -/
theorem status_on_zero_total (l : List PRFile)
    (h : (buildState l).total_lines = 0) :
    (cmdStatus (buildState l)).pct = 100 ∧
    (cmdStatus (buildState l)).remaining = 0 ∧
    (cmdStatus (buildState l)).files_left = (buildState l).files.length := by
  have hun : ∀ q ∈ (buildState l).files, q.2.reviewed = false :=
    unreviewed_foldl_buildStep l ⟨[], 0⟩ (by intro q hq; cases hq)
  have hrl : reviewedLines (buildState l).files = 0 :=
    reviewedLines_eq_zero _ hun
  refine ⟨?_, ?_, ?_⟩
  · simp [cmdStatus, h]
  · simp [cmdStatus, h, hrl]
  · simp [cmdStatus, filter_unreviewed_eq_self _ hun]

/-- Witness for the amended C6, at a one-element zero-line file list. -/
theorem status_on_zero_total_witness :
    (cmdStatus (buildState [⟨"a.py", 0, 0⟩])).pct = 100 ∧
    (cmdStatus (buildState [⟨"a.py", 0, 0⟩])).remaining = 0 ∧
    (cmdStatus (buildState [⟨"a.py", 0, 0⟩])).files_left =
      (buildState [⟨"a.py", 0, 0⟩]).files.length :=
  status_on_zero_total [⟨"a.py", 0, 0⟩] (by decide)

/-- Claim C7: for every state and path absent from `files`, `cmd_review`
prints the unknown-file report, returns `False`, leaves the state untouched
and never calls `save_state`. -/
theorem cmd_review_unknown_file (st : ReviewState) (path mode : String)
    (a : Bool) (h : getEntry st.files path = none) :
    cmdReview st path mode a =
      ⟨false, some ReviewMsg.unknownFile, st, false⟩ := by
  unfold cmdReview
  rw [h]

/-- Witness for C7: reviewing `b.py` against a state that only knows
`a.py`. -/
theorem cmd_review_unknown_file_witness :
    cmdReview ⟨[("a.py", ⟨5, false⟩)], 5⟩ "b.py" "skim" true =
      ⟨false, some ReviewMsg.unknownFile, ⟨[("a.py", ⟨5, false⟩)], 5⟩, false⟩ :=
  cmd_review_unknown_file ⟨[("a.py", ⟨5, false⟩)], 5⟩ "b.py" "skim" true
    (by decide)

/-- Claim C8: persisting a well-formed state (`save_state`, which serializes
to JSON under the pull-request key) and loading it back (`load_state`, which
parses that record) returns a state equal in all fields to the original. -/
theorem save_load_roundtrip (store : Store) (s : ReviewState) (pr_key : String)
    (_hwf : (s.files.map Prod.fst).Nodup) :
    load_state (save_state store s pr_key) pr_key = some s := by
  unfold load_state save_state
  simp [decodeState_encodeState]

/-- Witness for C8: an empty store, key 42, one reviewed file. -/
theorem save_load_roundtrip_witness :
    load_state (save_state (fun _ => none) ⟨[("a.py", ⟨5, true⟩)], 5⟩ "42")
      "42" = some ⟨[("a.py", ⟨5, true⟩)], 5⟩ :=
  save_load_roundtrip (fun _ => none) ⟨[("a.py", ⟨5, true⟩)], 5⟩ "42"
    (by decide)

/-- Claim C9: for every state whose entry at the path is unreviewed, a
`cmd_review` call whose mark-reviewed prompt is answered no returns `False`,
prints none of the state messages, leaves the entry unreviewed and the state
unchanged, and never calls `save_state`. -/
theorem cmd_review_declined (st : ReviewState) (path mode : String) (l : Nat)
    (h : getEntry st.files path = some ⟨l, false⟩) :
    cmdReview st path mode false = ⟨false, none, st, false⟩ := by
  unfold cmdReview
  rw [h]
  rfl

/-- Witness for C9: declining the prompt on a 5-line unreviewed file. -/
theorem cmd_review_declined_witness :
    cmdReview ⟨[("a.py", ⟨5, false⟩)], 5⟩ "a.py" "skim" false =
      ⟨false, none, ⟨[("a.py", ⟨5, false⟩)], 5⟩, false⟩ :=
  cmd_review_declined ⟨[("a.py", ⟨5, false⟩)], 5⟩ "a.py" "skim" 5 (by decide)

/-- Claim C10: for every metadata file list, the built `files` mapping has
pairwise-distinct paths, the entry of any path is the (unreviewed) entry of
its last occurrence in the list, and `total_lines` sums
`additions + deletions` over all occurrences; on the duplicated list
`[(a.py,+1,-0),(a.py,+2,-0)]` the total (3) therefore exceeds the sum of the
stored lines fields (2). -/
theorem overview_keeps_last_duplicate_and_sums_all (l : List PRFile)
    (p : String) :
    ((buildState l).files.map Prod.fst).Nodup ∧
    getEntry (buildState l).files p = lastEntry l p ∧
    (buildState l).total_lines =
      (l.map (fun f => f.additions + f.deletions)).sum ∧
    (buildState [⟨"a.py", 1, 0⟩, ⟨"a.py", 2, 0⟩]).total_lines >
      sumLines (buildState [⟨"a.py", 1, 0⟩, ⟨"a.py", 2, 0⟩]).files := by
  refine ⟨nodupKeys_foldl_buildStep l ⟨[], 0⟩ (by simp), ?_, ?_, by decide⟩
  · rw [buildState, getEntry_foldl_buildStep]
    cases lastEntry l p <;> simp [getEntry]
  · rw [buildState, foldl_buildStep_total]
    simp
